import Mathlib

/-!
Shallow embedding of the guide-generator workflow (src/app.py): a six-stage
Streamlit pipeline that drives an LLM to produce an SEO article and publishes
it as a WordPress draft.  Pure string manipulation (filename slugging, JSON
extraction from free text, heading-splice regex) is translated directly;
external effects (Gemini calls, HTTP requests, image codecs) are parameters
(oracles) of the transition functions.  Python `str` is modelled as
`String`/`List Char` (ASCII-faithful), Python ints as `Nat`.
-/

namespace GuideGen

/-! ## Character classes (models of Python regex classes over ASCII) -/

/-- Model of the regex class interaction in `\w` (word character) for ASCII text. -/
def isWordChar (c : Char) : Bool :=
  c.isAlpha || c.isDigit || c = '_'

/-- Model of the regex class in `\s` (Python whitespace) for ASCII text. -/
def isSpaceChar (c : Char) : Bool :=
  c = ' ' || c = '\t' || c = '\n' || c = '\r' || c = '\x0b' || c = '\x0c'

/-- Characters collapsed by the second substitution in src/app.py
`generate_seo_filename`: the class `[-\s]`. -/
def isHyphenSpace (c : Char) : Bool :=
  c = '-' || isSpaceChar c

/-! ## generate_seo_filename (src/app.py lines 51-60) -/

/-- Model of `re.sub(r'[^\w\s-]', '', text)`: delete every character that is
not a word character, whitespace, or hyphen. -/
def stripSpecial (cs : List Char) : List Char :=
  cs.filter (fun c => isWordChar c || isSpaceChar c || c = '-')

/-- Model of `re.sub(r'[-\s]+', '-', text)`: replace each maximal run of
hyphen/whitespace characters with a single hyphen.  The boolean flag records
whether we are inside a run whose replacement hyphen was already emitted. -/
def collapseAux : Bool → List Char → List Char
  | _, [] => []
  | inRun, c :: rest =>
    if isHyphenSpace c then
      if inRun then collapseAux true rest
      else '-' :: collapseAux true rest
    else c :: collapseAux false rest

/-- Replace each maximal `[-\s]+` run with a single hyphen. -/
def collapseHyphens (cs : List Char) : List Char :=
  collapseAux false cs

/-- Model of src/app.py `generate_seo_filename(text, index)`.  The call
`datetime.now().strftime("%Y%m%d")` is passed in as the `today` parameter. -/
def generate_seo_filename (text : String) (index : Nat) (today : String) : String :=
  let clean := (collapseHyphens (stripSpecial (text.data.map Char.toLower))).take 50
  String.mk clean ++ "-" ++ today ++ "-" ++ toString index ++ ".webp"

/-- Boolean check that a character list contains no two adjacent hyphens. -/
def noDoubleHyphen : List Char → Bool
  | [] => true
  | [_] => true
  | c1 :: c2 :: rest => !(c1 = '-' && c2 = '-') && noDoubleHyphen (c2 :: rest)

/-! ## JSON values and the strict decoder (model of Python `json.loads`) -/

/-- JSON values as produced by `json.loads`.  Numbers keep their source
lexeme: no claim inspects numeric values. -/
inductive Json where
  | null
  | bool (b : Bool)
  | num (lexeme : String)
  | str (s : String)
  | arr (elems : List Json)
  | obj (entries : List (String × Json))

/-- JSON insignificant whitespace accepted by Python `json.loads`. -/
def jsonWs (c : Char) : Bool :=
  c = ' ' || c = '\t' || c = '\n' || c = '\r'

/-- Drop leading JSON whitespace. -/
def skipWs : List Char → List Char
  | [] => []
  | c :: rest => if jsonWs c then skipWs rest else c :: rest

/-- Parse the body of a JSON string literal (after the opening quote),
returning the decoded characters and the remaining input.  Escapes other
than the single-character ones are not modelled (none appear in the data
this development evaluates); bare control characters are rejected as in
strict `json.loads`. -/
def parseStrBody (acc : List Char) : List Char → Option (List Char × List Char)
  | [] => none
  | c :: rest =>
    if c = '"' then some (acc.reverse, rest)
    else if c = '\\' then
      match rest with
      | [] => none
      | e :: rest2 =>
        if e = '"' then parseStrBody ('"' :: acc) rest2
        else if e = '\\' then parseStrBody ('\\' :: acc) rest2
        else if e = '/' then parseStrBody ('/' :: acc) rest2
        else if e = 'n' then parseStrBody ('\n' :: acc) rest2
        else if e = 't' then parseStrBody ('\t' :: acc) rest2
        else if e = 'r' then parseStrBody ('\r' :: acc) rest2
        else if e = 'b' then parseStrBody ('\x08' :: acc) rest2
        else if e = 'f' then parseStrBody ('\x0c' :: acc) rest2
        else none
    else if c.toNat < 32 then none
    else parseStrBody (c :: acc) rest

/-- Take a maximal run of decimal digits. -/
def takeDigits : List Char → List Char × List Char
  | [] => ([], [])
  | c :: rest =>
    if c.isDigit then
      let (ds, r) := takeDigits rest
      (c :: ds, r)
    else ([], c :: rest)

/-- Parse the integer part of a JSON number (strict grammar: a leading zero
must stand alone). -/
def parseIntPart : List Char → Option (List Char × List Char)
  | [] => none
  | c :: rest =>
    if c = '0' then some ([c], rest)
    else if c.isDigit then
      let (ds, r) := takeDigits rest
      some (c :: ds, r)
    else none

/-- Parse the optional fraction part `.digits` of a JSON number. -/
def parseFracPart (cs : List Char) : Option (List Char × List Char) :=
  match cs with
  | '.' :: rest =>
    match takeDigits rest with
    | ([], _) => none
    | (ds, r) => some ('.' :: ds, r)
  | _ => some ([], cs)

/-- Parse the optional exponent part of a JSON number. -/
def parseExpPart (cs : List Char) : Option (List Char × List Char) :=
  match cs with
  | e :: rest =>
    if e = 'e' || e = 'E' then
      match rest with
      | s :: rest2 =>
        if s = '+' || s = '-' then
          match takeDigits rest2 with
          | ([], _) => none
          | (ds, r) => some (e :: s :: ds, r)
        else
          match takeDigits rest with
          | ([], _) => none
          | (ds, r) => some (e :: ds, r)
      | [] => none
    else some ([], e :: rest)
  | [] => some ([], [])

/-- Parse a JSON number lexeme (strict grammar as in Python `json.loads`). -/
def parseNumber (cs : List Char) : Option (List Char × List Char) :=
  match cs with
  | '-' :: rest =>
    match parseIntPart rest with
    | none => none
    | some (ip, r1) =>
      match parseFracPart r1 with
      | none => none
      | some (fp, r2) =>
        match parseExpPart r2 with
        | none => none
        | some (ep, r3) => some ('-' :: (ip ++ fp ++ ep), r3)
  | _ =>
    match parseIntPart cs with
    | none => none
    | some (ip, r1) =>
      match parseFracPart r1 with
      | none => none
      | some (fp, r2) =>
        match parseExpPart r2 with
        | none => none
        | some (ep, r3) => some (ip ++ fp ++ ep, r3)

/-- Strip an exact (case-sensitive) literal prefix. -/
def stripLit : List Char → List Char → Option (List Char)
  | [], cs => some cs
  | _ :: _, [] => none
  | p :: ps, c :: cs => if p = c then stripLit ps cs else none

/-- Mode of the recursive-descent JSON reader: a whole value, the members of
an object (after its opening brace and any leading whitespace), or the
elements of an array. -/
inductive PMode where
  | value
  | members (acc : List (String × Json))
  | elems (acc : List Json)

/-- Fuel-indexed recursive-descent reader for strict JSON, following the
grammar recognised by Python `json.loads`.  Each recursive call consumes at
least one character, so fuel `length + 1` suffices. -/
def parseJsonF : Nat → PMode → List Char → Option (Json × List Char)
  | 0, _, _ => none
  | Nat.succ fuel, PMode.value, cs =>
    match skipWs cs with
    | [] => none
    | c :: rest =>
      if c = '"' then
        match parseStrBody [] rest with
        | none => none
        | some (s, r) => some (Json.str (String.mk s), r)
      else if c = '{' then
        match skipWs rest with
        | '}' :: r => some (Json.obj [], r)
        | r => parseJsonF fuel (PMode.members []) r
      else if c = '[' then
        match skipWs rest with
        | ']' :: r => some (Json.arr [], r)
        | r => parseJsonF fuel (PMode.elems []) r
      else
        match stripLit ('t' :: 'r' :: 'u' :: 'e' :: []) (c :: rest) with
        | some r => some (Json.bool true, r)
        | none =>
          match stripLit ('f' :: 'a' :: 'l' :: 's' :: 'e' :: []) (c :: rest) with
          | some r => some (Json.bool false, r)
          | none =>
            match stripLit ('n' :: 'u' :: 'l' :: 'l' :: []) (c :: rest) with
            | some r => some (Json.null, r)
            | none =>
              match parseNumber (c :: rest) with
              | none => none
              | some (lex, r) => some (Json.num (String.mk lex), r)
  | Nat.succ fuel, PMode.members acc, cs =>
    match cs with
    | '"' :: rest =>
      match parseStrBody [] rest with
      | none => none
      | some (k, r1) =>
        match skipWs r1 with
        | ':' :: r2 =>
          match parseJsonF fuel PMode.value r2 with
          | none => none
          | some (v, r3) =>
            match skipWs r3 with
            | ',' :: r4 =>
              parseJsonF fuel (PMode.members (acc ++ [(String.mk k, v)])) (skipWs r4)
            | '}' :: r4 => some (Json.obj (acc ++ [(String.mk k, v)]), r4)
            | _ => none
        | _ => none
    | _ => none
  | Nat.succ fuel, PMode.elems acc, cs =>
    match parseJsonF fuel PMode.value cs with
    | none => none
    | some (v, r1) =>
      match skipWs r1 with
      | ',' :: r2 => parseJsonF fuel (PMode.elems (acc ++ [v])) r2
      | ']' :: r2 => some (Json.arr (acc ++ [v]), r2)
      | _ => none

/-- Model of Python `json.loads` on a character list: strict decode of the
whole input (trailing whitespace allowed, anything else rejected). -/
def jsonLoadsL (cs : List Char) : Option Json :=
  match parseJsonF (cs.length + 1) PMode.value cs with
  | none => none
  | some (v, rest) => if skipWs rest = [] then some v else none

/-- Model of Python `json.loads` on a string. -/
def json_loads (s : String) : Option Json :=
  jsonLoadsL s.data

/-! ## JSON extraction from free text (src/app.py lines 233 and 443):
`re.search(r'\{.*\}', response, re.DOTALL)` -/

/-- Suffix of `cs` starting at the first occurrence of `ch` (or `none`). -/
def suffixFrom (ch : Char) : List Char → Option (List Char)
  | [] => none
  | c :: rest => if c = ch then some (c :: rest) else (suffixFrom ch rest)

/-- Model of the regex search `\{.*\}` with `re.DOTALL` (greedy): the match,
when it exists, runs from the first brace-open to the last brace-close of the
input. -/
def extractSpan (cs : List Char) : Option (List Char) :=
  match suffixFrom '{' cs with
  | none => none
  | some s1 =>
    match suffixFrom '}' s1.reverse with
    | none => none
    | some s2 => some s2.reverse

/-- Modelled from the spec: the first balanced brace-delimited substring of
the response ("the first balanced-looking JSON object substring").  Used only
to compare the spec's description with the source's greedy extraction. -/
def balancedLen (depth consumed : Nat) : List Char → Option Nat
  | [] => none
  | c :: rest =>
    if c = '{' then balancedLen (depth + 1) (consumed + 1) rest
    else if c = '}' then
      if depth = 1 then some (consumed + 1)
      else balancedLen (depth - 1) (consumed + 1) rest
    else balancedLen depth (consumed + 1) rest

/-- Modelled from the spec: extract the first balanced `\x7b ... \x7d`
substring of the input. -/
def specFirstBalancedObject (cs : List Char) : Option (List Char) :=
  match suffixFrom '{' cs with
  | none => none
  | some s1 =>
    match balancedLen 0 0 s1 with
    | none => none
    | some n => some (s1.take n)

/-! ## Session dictionary (model of the Python dict `st.session_state.article_data`) -/

/-- The article record: an insertion-ordered string-keyed dictionary. -/
abbrev Dict := List (String × Json)

/-- Model of `d[k] = v` on a Python dict: replace the value at the first
occurrence of the key, else append. -/
def dictSet : Dict → String → Json → Dict
  | [], k, v => [(k, v)]
  | (k', v') :: rest, k, v =>
    if k' = k then (k, v) :: rest else (k', v') :: dictSet rest k v

/-- Model of `d.get(k)` on a Python dict. -/
def dictGet : Dict → String → Option Json
  | [], _ => none
  | (k', v') :: rest, k => if k' = k then some v' else dictGet rest k

/-- Model of `d.update(other)` on a Python dict. -/
def dictMerge (d : Dict) (kvs : Dict) : Dict :=
  kvs.foldl (fun acc kv => dictSet acc kv.1 kv.2) d

/-! ## Session state and stage-form inputs -/

/-- Opaque handle for a raw uploaded image file. -/
abbrev ImgFile := Nat

/-- Opaque handle for re-encoded WebP bytes. -/
abbrev WebpBytes := Nat

/-- The Streamlit session state: current stage (`st.session_state.step`),
the article record (`st.session_state.article_data`), and the stored uploads
(`st.session_state.images`). -/
structure AppState where
  step : Nat
  article : Dict
  images : List ImgFile

/-- Inputs of the stage-1 form. -/
structure Step1Form where
  topic : String
  keyword : String
  tone : String
  word_count : Nat

/-- Inputs of the stage-2 form. -/
structure Step2Form where
  title : String
  meta_desc : String
  slug : String
  focus : String
  outline_text : String
  categories : String
  tags : String

/-! ## Stage 1 submit handler (src/app.py lines 228-245) -/

/-- The JSON-extraction-and-merge logic of the stage-1 handler applied to a
Gemini response string: search for the greedy brace span, strictly decode it,
merge the decoded object into the article record together with the form
fields, and advance to stage 2; on a missing span or a decode failure the
exception handler leaves the whole state unchanged. -/
def applyStep1Response (s : AppState) (f : Step1Form) (r : String) : AppState :=
  match extractSpan r.data with
  | none => s
  | some sp =>
    match jsonLoadsL sp with
    | some (Json.obj kvs) =>
      let d := dictMerge s.article kvs
      let d := dictSet d "topic" (Json.str f.topic)
      let d := dictSet d "keyword" (Json.str f.keyword)
      let d := dictSet d "tone" (Json.str f.tone)
      let d := dictSet d "word_count" (Json.num (toString f.word_count))
      { s with article := d, step := 2 }
    | _ => s

/-- The stage-1 submit handler: guarded by nonempty topic and keyword, with
the Gemini call's outcome passed as an oracle (`none` models a failed call,
after which nothing happens). -/
def step1Submit (s : AppState) (f : Step1Form) (resp : Option String) : AppState :=
  if f.topic ≠ "" ∧ f.keyword ≠ "" then
    match resp with
    | none => s
    | some r => applyStep1Response s f r
  else s

/-! ## Stage 2 handlers (src/app.py lines 282-296) -/

/-- Split a comma-separated string and strip whitespace from each piece:
the list comprehension over `categories.split(',')`. -/
def splitCommaTrim (s : String) : List String :=
  (s.splitOn ",").map String.trim

/-- The stage-2 "Generate Article" handler.  The four metadata fields are
written back before the outline is re-parsed; a `json.loads` failure raises
past the remaining writes, so on failure the stage, outline, categories and
tags are untouched while title, meta description, slug and focus keyphrase
have already been overwritten. -/
def step2Next (s : AppState) (f : Step2Form) : AppState :=
  let d := dictSet s.article "title" (Json.str f.title)
  let d := dictSet d "meta_description" (Json.str f.meta_desc)
  let d := dictSet d "slug" (Json.str f.slug)
  let d := dictSet d "focus_keyphrase" (Json.str f.focus)
  match json_loads f.outline_text with
  | none => { s with article := d }
  | some o =>
    let d := dictSet d "outline" o
    let d := dictSet d "categories" (Json.arr ((splitCommaTrim f.categories).map Json.str))
    let d := dictSet d "tags" (Json.arr ((splitCommaTrim f.tags).map Json.str))
    { s with article := d, step := 3 }

/-! ## Stage 5 upload gate (src/app.py lines 498-520) -/

/-- Number of descriptors in the image plan:
`len(st.session_state.article_data.get('image_plan', {}).get('images', []))`. -/
def planCount (d : Dict) : Nat :=
  match dictGet d "image_plan" with
  | some (Json.obj kvs) =>
    match dictGet kvs "images" with
    | some (Json.arr l) => l.length
    | _ => 0
  | _ => 0

/-- The `disabled=` flag of the "Publish to WordPress" button:
`len(uploaded_files) != images_needed`. -/
def publishButtonDisabled (files : List ImgFile) (needed : Nat) : Bool :=
  files.length != needed

/-- Whether the stage-5 count-mismatch warning is shown. -/
def step5Warning (files : List ImgFile) (needed : Nat) : Bool :=
  !files.isEmpty && files.length != needed

/-- The images stored in the session by the stage-5 body: the uploads are
written (in upload order) only when some files are present and the count
matches the plan exactly. -/
def step5StoredImages (prev files : List ImgFile) (needed : Nat) : List ImgFile :=
  if !files.isEmpty && files.length == needed then files else prev

/-! ## Secrets and startup (src/app.py lines 26-32, 71-75, 108-110) -/

/-- The four configuration secrets, each possibly absent. -/
structure Secrets where
  gemini : Option String
  wpUrl : Option String
  wpUser : Option String
  wpPass : Option String

/-- Whether all four required secrets are present. -/
def requiredSecretsPresent (cfg : Secrets) : Bool :=
  cfg.gemini.isSome && cfg.wpUrl.isSome && cfg.wpUser.isSome && cfg.wpPass.isSome

/-- The startup guard: `genai.configure(api_key=st.secrets["GEMINI_API_KEY"])`
inside try/except followed by `st.stop()`.  It halts when the Gemini secret
is absent (the subscript raises) or configuration itself fails (oracle flag);
no WordPress secret is read here. -/
def startupHalts (cfg : Secrets) (configureFails : Bool) : Bool :=
  cfg.gemini.isNone || configureFails

/-- The secret reads at the top of `upload_to_wordpress` (and likewise
`create_wordpress_post`), executed only inside stage 6: absent keys raise
there, outside the function's try block. -/
def wpSecretsRead (cfg : Secrets) : Option (String × String × String) :=
  match cfg.wpUrl, cfg.wpUser, cfg.wpPass with
  | some u, some n, some p => some (u, n, p)
  | _, _, _ => none

/-! ## Heading-splice regex (src/app.py lines 567-580):
`re.search(f"<h2>.*?ESCAPED.*?</h2>", content, re.IGNORECASE)` -/

/-- Case-insensitive character equality (ASCII, via `Char.toLower`). -/
def lcEq (a b : Char) : Bool :=
  a.toLower = b.toLower

/-- Does `pat` match case-insensitively as a prefix of `cs`? -/
def matchLitCI : List Char → List Char → Bool
  | [], _ => true
  | _ :: _, [] => false
  | p :: ps, c :: cs => lcEq p c && matchLitCI ps cs

/-- Lazy `.*?LIT` matching: the smallest end offset at which `lit` has just
been matched, where the skipped characters may not include a newline (`.`
without `re.DOTALL`). -/
def lazyFindEnd (lit : List Char) : List Char → Option Nat
  | [] => if matchLitCI lit [] then some lit.length else none
  | c :: rest =>
    if matchLitCI lit (c :: rest) then some lit.length
    else if c = '\n' then none
    else (lazyFindEnd lit rest).map (· + 1)

/-- Lazy `.*?TGT.*?CLOSE` matching with backtracking: at each candidate
position for `tgt` (earliest first, skipping only non-newline characters),
try to complete with the closest following `close`; on failure move the
first gap one character further.  Returns the end offset of `close`. -/
def lazyTgtClose (tgt close : List Char) : List Char → Option Nat
  | [] =>
    if matchLitCI tgt [] then (lazyFindEnd close []).map (tgt.length + ·)
    else none
  | c :: rest =>
    if matchLitCI tgt (c :: rest) then
      match lazyFindEnd close (List.drop tgt.length (c :: rest)) with
      | some e => some (tgt.length + e)
      | none =>
        if c = '\n' then none
        else (lazyTgtClose tgt close rest).map (· + 1)
    else
      if c = '\n' then none
      else (lazyTgtClose tgt close rest).map (· + 1)

/-- The literal open tag of the heading pattern. -/
def h2open : List Char := '<' :: 'h' :: '2' :: '>' :: []

/-- The literal close tag of the heading pattern. -/
def h2close : List Char := '<' :: '/' :: 'h' :: '2' :: '>' :: []

/-- Model of `re.search(f"<h2>.*?ESCAPED.*?</h2>", content, re.IGNORECASE)`:
the end index of the leftmost match (Python tries every start position; at a
position where the open tag matches but the body cannot complete, the search
moves on by one character). -/
def h2SearchEnd (tgt : List Char) : List Char → Option Nat
  | [] => none
  | c :: rest =>
    if matchLitCI h2open (c :: rest) then
      match lazyTgtClose tgt h2close (List.drop 4 (c :: rest)) with
      | some e => some (4 + e)
      | none => (h2SearchEnd tgt rest).map (· + 1)
    else (h2SearchEnd tgt rest).map (· + 1)

/-! ## Publish pipeline (src/app.py lines 522-624) -/

/-- One image descriptor of the plan, with the fields the publish loop reads
(`img_data.get(...)`). -/
structure Descriptor where
  alt_text : String
  caption : String
  position : Option String
  section_heading : Option String
deriving DecidableEq

/-- A successful media-creation response (`id`, `source_url`). -/
structure Media where
  id : Nat
  source_url : String
deriving DecidableEq

/-- An entry of the `wp_images` list built by the upload loop. -/
structure WpImage where
  id : Nat
  url : String
  alt : String
  caption : String
  position : Option String
  section_heading : Option String
deriving DecidableEq

/-- The `post_data` payload of `create_wordpress_post`. -/
structure PostRequest where
  title : String
  content : String
  status : String
  slug : String
  meta_description : String
  categories : List Nat
  tags : List Nat
  featured_media : Nat
deriving DecidableEq

/-- A successful post-creation response body. -/
structure PostResponse where
  id : Nat
  title : String
  status : String
  link : String
deriving DecidableEq

/-- External-effect oracles of the publish stage: image conversion
(`convert_to_webp`, `none` = failure), media upload (`upload_to_wordpress`
on webp bytes, filename and alt text; `none` = non-201 or exception), the
two name-to-id lookup dictionaries, post creation, and today's date stamp. -/
structure PublishEnv where
  convert : ImgFile → Option WebpBytes
  upload : WebpBytes → String → String → Option Media
  wpCategories : String → Option Nat
  wpTags : String → Option Nat
  createPost : PostRequest → Option PostResponse
  today : String

/-- Body of one iteration of the upload loop: convert, derive the SEO
filename, upload; `none` when conversion or upload failed (the loop then
just reports and continues). -/
def processOne (env : PublishEnv) (idx : Nat) (file : ImgFile) (d : Descriptor) :
    Option WpImage :=
  match env.convert file with
  | none => none
  | some webp =>
    let filename := generate_seo_filename d.alt_text idx env.today
    match env.upload webp filename d.alt_text with
    | none => none
    | some media =>
      some { id := media.id, url := media.source_url, alt := d.alt_text,
             caption := d.caption, position := d.position,
             section_heading := d.section_heading }

/-- The upload loop over `zip(uploaded_images, plan['images'])` with 1-based
enumeration, accumulating `wp_images` from the successes only. -/
def processImages (env : PublishEnv) : Nat → List (ImgFile × Descriptor) → List WpImage
  | _, [] => []
  | idx, p :: rest =>
    match processOne env idx p.1 p.2 with
    | some w => w :: processImages env (idx + 1) rest
    | none => processImages env (idx + 1) rest

/-- The per-image outcomes of the upload loop, kept as options (used to state
partial-failure properties). -/
def processOutcomes (env : PublishEnv) : Nat → List (ImgFile × Descriptor) → List (Option WpImage)
  | _, [] => []
  | idx, p :: rest => processOne env idx p.1 p.2 :: processOutcomes env (idx + 1) rest

/-- The featured image id: `wp_images[0]['id'] if wp_images else 0`. -/
def featuredImageId : List WpImage → Nat
  | [] => 0
  | w :: _ => w.id

/-- The figure block spliced after a matched heading. -/
def figureHtml (url alt caption : String) : String :=
  "\n<figure class=\"wp-block-image\"><img src=\"" ++ url ++ "\" alt=\"" ++ alt ++
    "\" />" ++
    (if caption ≠ "" then "<figcaption>" ++ caption ++ "</figcaption>" else "") ++
    "</figure>\n"

/-- String-slice insertion `content[:pos] + ins + content[pos:]`. -/
def insertAt (cs : List Char) (pos : Nat) (ins : List Char) : List Char :=
  cs.take pos ++ ins ++ cs.drop pos

/-- One iteration of the in-content splice loop: images without a truthy
`section_heading` are skipped, a failed regex search leaves the content
unchanged, and a match inserts the figure block at the match end. -/
def spliceImage (content : List Char) (img : WpImage) : List Char :=
  match img.section_heading with
  | none => content
  | some h =>
    if h = "" then content
    else
      match h2SearchEnd h.data content with
      | none => content
      | some e => insertAt content e (figureHtml img.url img.alt img.caption).data

/-- The splice loop `for img in wp_images[1:]`, threading the updated
content. -/
def spliceAll (content : List Char) (ws : List WpImage) : List Char :=
  (ws.drop 1).foldl spliceImage content

/-- Case-insensitive substring containment. -/
def containsCI (tgt : List Char) : List Char → Bool
  | [] => matchLitCI tgt []
  | c :: rest => matchLitCI tgt (c :: rest) || containsCI tgt rest

/-- First end offset of a case-insensitive literal occurrence (no newline
restriction). -/
def findLitEndCI (lit : List Char) : List Char → Option Nat
  | [] => if matchLitCI lit [] then some lit.length else none
  | c :: rest =>
    if matchLitCI lit (c :: rest) then some lit.length
    else (findLitEndCI lit rest).map (· + 1)

/-- Modelled from the spec: locate the first level-2 heading element whose
inner text contains the target as a case-insensitive substring and return
the index just after its closing tag.  Used only to compare the spec's
description of the splice point with the source's regex. -/
def specFirstH2End (tgt : List Char) : List Char → Option Nat
  | [] => none
  | c :: rest =>
    (if matchLitCI h2open (c :: rest) then
      match findLitEndCI h2close (List.drop 4 (c :: rest)) with
      | none => none
      | some e =>
        let inner := (List.drop 4 (c :: rest)).take (e - 5)
        if containsCI tgt inner then some (4 + e) else none
    else none).orElse (fun _ => (specFirstH2End tgt rest).map (· + 1))

/-- Modelled from the spec: splice the figure block immediately after the
first heading whose inner text contains the target. -/
def specHeadingSplice (content : List Char) (img : WpImage) : List Char :=
  match img.section_heading with
  | none => content
  | some h =>
    if h = "" then content
    else
      match specFirstH2End h.data content with
      | none => content
      | some e => insertAt content e (figureHtml img.url img.alt img.caption).data

/-- Name-to-id resolution against a fetched dictionary: names not present
are dropped, never created. -/
def resolveIds (names : List String) (table : String → Option Nat) : List Nat :=
  names.filterMap table

/-- The `post_data` dict literal of `create_wordpress_post`: the status is
the fixed string "draft". -/
def wordpress_post_data (title content meta_desc slug : String)
    (categories tags : List Nat) (featured_image_id : Nat) : PostRequest :=
  { title := title, content := content, status := "draft", slug := slug,
    meta_description := meta_desc, categories := categories, tags := tags,
    featured_media := featured_image_id }

/-- Model of `create_wordpress_post`: build the draft payload and issue the
request through the oracle. -/
def create_wordpress_post (env : PublishEnv) (title content meta_desc slug : String)
    (categories tags : List Nat) (featured_image_id : Nat) : Option PostResponse :=
  env.createPost (wordpress_post_data title content meta_desc slug categories tags
    featured_image_id)

/-- The session data the publish handler reads. -/
structure PublishInputs where
  title : String
  meta_desc : String
  slug : String
  content : String
  categories : List String
  tags : List String
  planImages : List Descriptor
  uploadedImages : List ImgFile

/-- Everything the publish handler produced: the successful uploads, the
post-creation request, and its outcome. -/
structure PublishResult where
  wpImages : List WpImage
  request : PostRequest
  postResult : Option PostResponse

/-- The whole stage-6 publish pipeline (src/app.py lines 526-607): convert
and upload each image, take the first success as featured image, splice the
rest into the content, resolve category and tag names, and issue one
post-creation request. -/
def publishRun (env : PublishEnv) (inp : PublishInputs) : PublishResult :=
  let ws := processImages env 1 (inp.uploadedImages.zip inp.planImages)
  let featured_image_id := featuredImageId ws
  let content2 := spliceAll inp.content.data ws
  let category_ids := resolveIds inp.categories env.wpCategories
  let tag_ids := resolveIds inp.tags env.wpTags
  let req := wordpress_post_data inp.title (String.mk content2) inp.meta_desc inp.slug
    category_ids tag_ids featured_image_id
  { wpImages := ws, request := req, postResult := env.createPost req }

/-! ## The stage machine (button handlers as actions) -/

/-- Whether an image plan is present (`'image_plan' in article_data`). -/
def hasPlan (s : AppState) : Bool :=
  (dictGet s.article "image_plan").isSome

/-- The stage-5 script body on a click of the publish button: store the
files on an exact count match, then advance when the button was enabled. -/
def publish5Handler (s : AppState) (files : List ImgFile) : AppState :=
  let needed := planCount s.article
  let s' := { s with images := step5StoredImages s.images files needed }
  if files.length = needed then { s' with step := 6 } else s'

/-- The button/submit actions of the app, each carrying its form inputs and
external-call oracles. -/
inductive Action where
  | submit1 (f : Step1Form) (resp : Option String)
  | back2
  | next2 (f : Step2Form)
  | back3
  | fwd3
  | back4
  | fwd4
  | back5
  | publish5 (files : List ImgFile)
  | publish6 (env : PublishEnv)
  | reset

/-- Is the action one of the five explicitly mapped forward transitions? -/
def isForwardAction : Action → Bool
  | Action.submit1 _ _ => true
  | Action.next2 _ => true
  | Action.fwd3 => true
  | Action.fwd4 => true
  | Action.publish5 _ => true
  | _ => false

/-- The session-state transition of each action.  An action fires only at
the stage whose script renders its widget (stage-4 buttons render only once
an image plan exists).  The stage-6 publish click performs external calls
(`publishRun`) but writes no session state. -/
def stepFn (s : AppState) (a : Action) : AppState :=
  match a with
  | Action.submit1 f resp => if s.step = 1 then step1Submit s f resp else s
  | Action.back2 => if s.step = 2 then { s with step := 1 } else s
  | Action.next2 f => if s.step = 2 then step2Next s f else s
  | Action.back3 => if s.step = 3 then { s with step := 2 } else s
  | Action.fwd3 => if s.step = 3 then { s with step := 4 } else s
  | Action.back4 => if s.step = 4 ∧ hasPlan s = true then { s with step := 3 } else s
  | Action.fwd4 => if s.step = 4 ∧ hasPlan s = true then { s with step := 5 } else s
  | Action.back5 => if s.step = 5 then { s with step := 4 } else s
  | Action.publish5 files => if s.step = 5 then publish5Handler s files else s
  | Action.publish6 _ => s
  | Action.reset => { step := 1, article := [], images := [] }

/-! ## Helper lemmas -/

theorem toLower_isUpper_false : ∀ (c : Char), (c.toLower).isUpper = false := by
  intro c
  by_cases h : 65 ≤ c.toNat ∧ c.toNat ≤ 90
  · have key : ∀ m : Nat, 65 ≤ m → m ≤ 90 → (Char.ofNat (m + 32)).isUpper = false := by
      intro m hm1 hm2
      interval_cases m <;> decide
    have hc : c.toLower = Char.ofNat (c.toNat + 32) := by
      simp only [Char.toLower]
      rw [if_pos]
      exact ⟨h.1, h.2⟩
    rw [hc]
    exact key c.toNat h.1 h.2
  · have hlow : c.toLower = c := by
      simp only [Char.toLower]
      rw [if_neg]
      intro hc
      exact h ⟨hc.1, hc.2⟩
    rw [hlow]
    simp only [Char.isUpper]
    rw [not_and_or] at h
    simp only [not_le] at h
    rw [Bool.and_eq_false_iff]
    have hh : c.toNat = c.val.toBitVec.toNat := rfl
    rcases h with h | h
    · left
      simp only [ge_iff_le, decide_eq_false_iff_not]
      intro hc
      have h2 := UInt32.le_def.mp hc
      rw [BitVec.le_def] at h2
      have h65 : (65 : UInt32).toBitVec.toNat = 65 := by decide
      rw [h65] at h2
      omega
    · right
      simp only [decide_eq_false_iff_not]
      intro hc
      have h2 := UInt32.le_def.mp hc
      rw [BitVec.le_def] at h2
      have h90 : (90 : UInt32).toBitVec.toNat = 90 := by decide
      rw [h90] at h2
      omega

theorem mem_collapseAux {c : Char} :
    ∀ (l : List Char) (b : Bool), c ∈ collapseAux b l →
      c = '-' ∨ (c ∈ l ∧ isHyphenSpace c = false) := by
  intro l
  induction l with
  | nil => intro b h; simp [collapseAux] at h
  | cons d rest ih =>
    intro b h
    by_cases hd : isHyphenSpace d = true
    · cases b with
      | true =>
        simp only [collapseAux, hd, if_pos] at h
        rcases ih true h with h1 | ⟨h1, h2⟩
        · exact Or.inl h1
        · exact Or.inr ⟨List.mem_cons_of_mem _ h1, h2⟩
      | false =>
        simp only [collapseAux, hd, if_pos] at h
        rcases List.mem_cons.mp h with h1 | h1
        · exact Or.inl h1
        · rcases ih true h1 with h2 | ⟨h2, h3⟩
          · exact Or.inl h2
          · exact Or.inr ⟨List.mem_cons_of_mem _ h2, h3⟩
    · rw [Bool.not_eq_true] at hd
      simp only [collapseAux, hd] at h
      rcases List.mem_cons.mp h with h1 | h1
      · subst h1
        exact Or.inr ⟨List.mem_cons_self _ _, hd⟩
      · rcases ih false h1 with h2 | ⟨h2, h3⟩
        · exact Or.inl h2
        · exact Or.inr ⟨List.mem_cons_of_mem _ h2, h3⟩

theorem noDoubleHyphen_cons_iff {c : Char} {xs : List Char} :
    noDoubleHyphen (c :: xs) = true ↔
      ((c = '-' → xs.head? ≠ some '-') ∧ noDoubleHyphen xs = true) := by
  cases xs with
  | nil => simp [noDoubleHyphen]
  | cons y t =>
    simp only [noDoubleHyphen, List.head?, Bool.and_eq_true, Bool.not_eq_true']
    constructor
    · rintro ⟨h1, h2⟩
      refine ⟨?_, h2⟩
      intro hc hy
      subst hc
      have : y = '-' := by
        injection hy
      subst this
      simp at h1
    · rintro ⟨h1, h2⟩
      refine ⟨?_, h2⟩
      by_cases hc : c = '-'
      · have hy : y ≠ '-' := by
          intro hy
          exact h1 hc (by rw [hy])
        subst hc
        simp [hy]
      · simp [hc]

theorem head?_collapseAux_true :
    ∀ (l : List Char), (collapseAux true l).head? ≠ some '-' := by
  intro l
  induction l with
  | nil => simp [collapseAux]
  | cons c rest ih =>
    by_cases hc : isHyphenSpace c = true
    · simp only [collapseAux, hc, if_pos]
      exact ih
    · rw [Bool.not_eq_true] at hc
      simp only [collapseAux, hc]
      intro h
      have : c = '-' := by injection h
      subst this
      simp [isHyphenSpace] at hc

theorem noDoubleHyphen_collapseAux :
    ∀ (l : List Char) (b : Bool), noDoubleHyphen (collapseAux b l) = true := by
  intro l
  induction l with
  | nil => intro b; simp [collapseAux, noDoubleHyphen]
  | cons c rest ih =>
    intro b
    by_cases hc : isHyphenSpace c = true
    · cases b with
      | true =>
        simp only [collapseAux, hc, if_pos]
        exact ih true
      | false =>
        simp only [collapseAux, hc, if_pos, Bool.false_eq_true, ite_false]
        rw [noDoubleHyphen_cons_iff]
        exact ⟨fun _ => head?_collapseAux_true rest, ih true⟩
    · rw [Bool.not_eq_true] at hc
      simp only [collapseAux, hc, Bool.false_eq_true, ite_false]
      rw [noDoubleHyphen_cons_iff]
      refine ⟨?_, ih false⟩
      intro hcc
      subst hcc
      simp [isHyphenSpace] at hc

theorem noDoubleHyphen_take {l : List Char} (h : noDoubleHyphen l = true) :
    ∀ (n : Nat), noDoubleHyphen (l.take n) = true := by
  induction l with
  | nil => intro n; simp [noDoubleHyphen]
  | cons c rest ih =>
    intro n
    cases n with
    | zero => simp [noDoubleHyphen]
    | succ m =>
      rw [List.take_succ_cons, noDoubleHyphen_cons_iff]
      rw [noDoubleHyphen_cons_iff] at h
      refine ⟨?_, ih h.2 m⟩
      intro hc hhd
      apply h.1 hc
      cases rest with
      | nil => simp at hhd
      | cons y t =>
        cases m with
        | zero => simp at hhd
        | succ k =>
          rw [List.take_succ_cons] at hhd
          simpa using hhd

theorem dictGet_dictSet_self (d : Dict) (k : String) (v : Json) :
    dictGet (dictSet d k v) k = some v := by
  induction d with
  | nil => simp [dictSet, dictGet]
  | cons kv rest ih =>
    obtain ⟨k0, v0⟩ := kv
    by_cases h : k0 = k
    · simp [dictSet, dictGet, h]
    · simp [dictSet, dictGet, h, ih]

theorem dictGet_dictSet_ne (d : Dict) (k k' : String) (v : Json) (h : k ≠ k') :
    dictGet (dictSet d k v) k' = dictGet d k' := by
  induction d with
  | nil => simp [dictSet, dictGet, h]
  | cons kv rest ih =>
    obtain ⟨k0, v0⟩ := kv
    by_cases hk : k0 = k
    · subst hk
      simp [dictSet, dictGet, h]
    · simp [dictSet, dictGet, hk, ih]

theorem suffixFrom_decomp (ch : Char) :
    ∀ (cs s : List Char), suffixFrom ch cs = some s →
      ∃ pre, cs = pre ++ s ∧ ch ∉ pre ∧ s.head? = some ch := by
  intro cs
  induction cs with
  | nil => intro s h; simp [suffixFrom] at h
  | cons c rest ih =>
    intro s h
    by_cases hc : c = ch
    · subst hc
      simp only [suffixFrom] at h
      split at h
      · injection h with h
        refine ⟨[], by rw [h]; simp, by simp, by rw [← h]; simp⟩
      · rename_i hcc
        simp at hcc
    · simp only [suffixFrom] at h
      rw [if_neg hc] at h
      obtain ⟨pre, h1, h2, h3⟩ := ih s h
      refine ⟨c :: pre, by rw [h1]; rfl, ?_, h3⟩
      intro hmem
      rcases List.mem_cons.mp hmem with h4 | h4
      · exact hc h4.symm
      · exact h2 h4

theorem extractSpan_decomp (cs sp : List Char) (h : extractSpan cs = some sp) :
    ∃ pre post, cs = pre ++ sp ++ post ∧ '{' ∉ pre ∧ '}' ∉ post ∧
      sp.head? = some '{' ∧ sp.getLast? = some '}' := by
  unfold extractSpan at h
  split at h
  · exact absurd h (by simp)
  · rename_i s1 h1
    split at h
    · exact absurd h (by simp)
    · rename_i s2 h2
      injection h with h
      obtain ⟨pre, hp1, hp2, hp3⟩ := suffixFrom_decomp '{' cs s1 h1
      obtain ⟨pre2, hq1, hq2, hq3⟩ := suffixFrom_decomp '}' s1.reverse s2 h2
      have hsp : sp = s2.reverse := h.symm
      have hs1 : s1 = s2.reverse ++ pre2.reverse := by
        have h5 : s1.reverse.reverse = (pre2 ++ s2).reverse := by rw [hq1]
        simpa [List.reverse_append] using h5
      refine ⟨pre, pre2.reverse, ?_, hp2, ?_, ?_, ?_⟩
      · rw [hp1, hs1, hsp, List.append_assoc]
      · intro hmem
        exact hq2 (List.mem_reverse.mp hmem)
      · rw [hsp]
        have hne : s2.reverse ≠ [] := by
          intro hnil
          have h6 : s2 = [] := by simpa using congrArg List.reverse hnil
          rw [h6] at hq3
          simp at hq3
        cases hrev : s2.reverse with
        | nil => exact absurd hrev hne
        | cons a t =>
          have h7 : s1.head? = some a := by
            rw [hs1, hrev]
            rfl
          rw [hp3] at h7
          have ha : a = '{' := by
            injection h7 with h8
            exact h8.symm
          simp [ha]
      · rw [hsp, List.getLast?_reverse]
        exact hq3

theorem matchLitCI_le_length :
    ∀ (lit cs : List Char), matchLitCI lit cs = true → lit.length ≤ cs.length := by
  intro lit
  induction lit with
  | nil => intro cs _; simp
  | cons p ps ih =>
    intro cs h
    cases cs with
    | nil => simp [matchLitCI] at h
    | cons c t =>
      simp only [matchLitCI, Bool.and_eq_true] at h
      have := ih t h.2
      simp only [List.length_cons]
      omega

theorem lazyFindEnd_le_length :
    ∀ (cs : List Char) (lit : List Char) (e : Nat),
      lazyFindEnd lit cs = some e → e ≤ cs.length := by
  intro cs
  induction cs with
  | nil =>
    intro lit e h
    simp only [lazyFindEnd] at h
    split at h
    · rename_i hm
      have hb := matchLitCI_le_length lit [] hm
      injection h with h
      simp only [List.length_nil] at hb ⊢
      omega
    · exact absurd h (by simp)
  | cons c rest ih =>
    intro lit e h
    simp only [lazyFindEnd] at h
    split at h
    · rename_i hm
      have hb := matchLitCI_le_length lit (c :: rest) hm
      injection h with h
      omega
    · split at h
      · exact absurd h (by simp)
      · obtain ⟨e', he', heq⟩ := Option.map_eq_some'.mp h
        have heq2 : e' + 1 = e := heq
        have hb := ih lit e' he'
        simp only [List.length_cons]
        omega

theorem lazyTgtClose_le_length :
    ∀ (cs tgt close : List Char) (e : Nat),
      lazyTgtClose tgt close cs = some e → e ≤ cs.length := by
  intro cs
  induction cs with
  | nil =>
    intro tgt close e h
    simp only [lazyTgtClose] at h
    split at h
    · rename_i hm
      have hl := matchLitCI_le_length tgt [] hm
      obtain ⟨e', he', heq⟩ := Option.map_eq_some'.mp h
      have hb := lazyFindEnd_le_length [] close e' he'
      simp only [List.length_nil] at hl hb ⊢
      omega
    · exact absurd h (by simp)
  | cons c rest ih =>
    intro tgt close e h
    simp only [lazyTgtClose] at h
    split at h
    · rename_i hm
      have hl := matchLitCI_le_length tgt (c :: rest) hm
      split at h
      · rename_i e' h2
        have hb := lazyFindEnd_le_length _ close e' h2
        rw [List.length_drop] at hb
        injection h with h
        omega
      · split at h
        · exact absurd h (by simp)
        · obtain ⟨e', he', heq⟩ := Option.map_eq_some'.mp h
          have hb := ih tgt close e' he'
          simp only [List.length_cons]
          omega
    · split at h
      · exact absurd h (by simp)
      · obtain ⟨e', he', heq⟩ := Option.map_eq_some'.mp h
        have heq2 : e' + 1 = e := heq
        have hb := ih tgt close e' he'
        simp only [List.length_cons]
        omega

theorem h2SearchEnd_le_length :
    ∀ (cs tgt : List Char) (e : Nat),
      h2SearchEnd tgt cs = some e → e ≤ cs.length := by
  intro cs
  induction cs with
  | nil => intro tgt e h; simp [h2SearchEnd] at h
  | cons c rest ih =>
    intro tgt e h
    simp only [h2SearchEnd] at h
    split at h
    · rename_i hm
      have hm4 := matchLitCI_le_length h2open (c :: rest) hm
      have h2o : h2open.length = 4 := rfl
      rw [h2o] at hm4
      split at h
      · rename_i e' h2
        have hb := lazyTgtClose_le_length _ tgt h2close e' h2
        rw [List.length_drop] at hb
        injection h with h
        simp only [List.length_cons] at hm4 hb ⊢
        omega
      · obtain ⟨e', he', heq⟩ := Option.map_eq_some'.mp h
        have heq2 : e' + 1 = e := heq
        have hb := ih tgt e' he'
        simp only [List.length_cons]
        omega
    · obtain ⟨e', he', heq⟩ := Option.map_eq_some'.mp h
      have heq2 : e' + 1 = e := heq
      have hb := ih tgt e' he'
      simp only [List.length_cons]
      omega

theorem sublist_insertAt (cs ins : List Char) (pos : Nat) :
    cs.Sublist (insertAt cs pos ins) := by
  unfold insertAt
  rw [List.append_assoc]
  conv_lhs => rw [← List.take_append_drop pos cs]
  exact (List.sublist_append_right ins (cs.drop pos)).append_left (cs.take pos)

theorem sublist_spliceImage (cs : List Char) (img : WpImage) :
    cs.Sublist (spliceImage cs img) := by
  unfold spliceImage
  split
  · exact List.Sublist.refl cs
  · split
    · exact List.Sublist.refl cs
    · split
      · exact List.Sublist.refl cs
      · exact sublist_insertAt cs _ _

theorem sublist_spliceFold (ws : List WpImage) :
    ∀ (cs : List Char), cs.Sublist (ws.foldl spliceImage cs) := by
  induction ws with
  | nil => intro cs; exact List.Sublist.refl cs
  | cons w rest ih =>
    intro cs
    exact (sublist_spliceImage cs w).trans (ih (spliceImage cs w))

theorem processImages_eq_outcomes (env : PublishEnv) :
    ∀ (l : List (ImgFile × Descriptor)) (i : Nat),
      processImages env i l = (processOutcomes env i l).reduceOption := by
  intro l
  induction l with
  | nil => intro i; rfl
  | cons p rest ih =>
    intro i
    simp only [processImages, processOutcomes]
    cases processOne env i p.1 p.2 with
    | none => simp [List.reduceOption_cons_of_none, ih]
    | some w => simp [List.reduceOption_cons_of_some, ih]

theorem applyStep1Response_step (s : AppState) (f : Step1Form) (r : String) :
    (applyStep1Response s f r).step = s.step ∨ (applyStep1Response s f r).step = 2 := by
  unfold applyStep1Response
  split
  · exact Or.inl rfl
  · split
    all_goals first
      | exact Or.inl rfl
      | exact Or.inr rfl

theorem step1Submit_step (s : AppState) (f : Step1Form) (resp : Option String) :
    (step1Submit s f resp).step = s.step ∨ (step1Submit s f resp).step = 2 := by
  unfold step1Submit
  split
  · cases resp with
    | none => exact Or.inl rfl
    | some r => exact applyStep1Response_step s f r
  · exact Or.inl rfl

theorem step2Next_step (s : AppState) (f : Step2Form) :
    (step2Next s f).step = s.step ∨ (step2Next s f).step = 3 := by
  cases h : json_loads f.outline_text with
  | none => exact Or.inl (by simp [step2Next, h])
  | some o => exact Or.inr (by simp [step2Next, h])

theorem publish5Handler_step (s : AppState) (files : List ImgFile) :
    (publish5Handler s files).step = s.step ∨ (publish5Handler s files).step = 6 := by
  unfold publish5Handler
  by_cases hc : files.length = planCount s.article
  · rw [if_pos hc]
    exact Or.inr rfl
  · rw [if_neg hc]
    exact Or.inl rfl

/-! ## Claim theorems -/

/-- C6: for every alt text, index and date stamp, `generate_seo_filename`
returns `stem ++ "-" ++ date ++ "-" ++ index ++ ".webp"` where the stem has
at most 50 characters, each being a hyphen or a lowercase-or-nonalphabetic
word character (no whitespace survives), with no two adjacent hyphens; and
the concrete input "Best Budget Phone!! 2025" at index 3 on a fixed date
yields "best-budget-phone-2025-20250101-3.webp". -/
theorem c6_filename_shape (text : String) (index : Nat) (today : String) :
    ∃ stem : List Char,
      generate_seo_filename text index today
        = String.mk stem ++ "-" ++ today ++ "-" ++ toString index ++ ".webp"
      ∧ stem.length ≤ 50
      ∧ (∀ c ∈ stem,
          c = '-' ∨ (isWordChar c = true ∧ c.isUpper = false ∧ isSpaceChar c = false))
      ∧ noDoubleHyphen stem = true
      ∧ generate_seo_filename "Best Budget Phone!! 2025" 3 "20250101"
          = "best-budget-phone-2025-20250101-3.webp" := by
  refine ⟨(collapseHyphens (stripSpecial (text.data.map Char.toLower))).take 50,
    rfl, ?_, ?_, ?_, by rfl⟩
  · rw [List.length_take]
    exact min_le_left _ _
  · intro c hc
    have hc1 : c ∈ collapseHyphens (stripSpecial (text.data.map Char.toLower)) :=
      List.mem_of_mem_take hc
    unfold collapseHyphens at hc1
    rcases mem_collapseAux _ _ hc1 with h1 | ⟨h1, h2⟩
    · exact Or.inl h1
    · right
      have h3 := List.mem_filter.mp h1
      simp only [isHyphenSpace, Bool.or_eq_false_iff] at h2
      have h4 : isWordChar c = true := by
        have h5 := h3.2
        simp only [h2.1, h2.2, Bool.or_false] at h5
        exact h5
      refine ⟨h4, ?_, ?_⟩
      · obtain ⟨d, _, hd⟩ := List.mem_map.mp h3.1
        rw [← hd]
        exact toLower_isUpper_false d
      · exact h2.2
  · exact noDoubleHyphen_take (noDoubleHyphen_collapseAux _ false) 50

/-- C6 witness: the shape theorem applied at the concrete input of the
claim, yielding the expected filename. -/
theorem c6_filename_shape_witness :
    generate_seo_filename "Best Budget Phone!! 2025" 3 "20250101"
      = "best-budget-phone-2025-20250101-3.webp" := by
  obtain ⟨stem, h1, h2, h3, h4, h5⟩ := c6_filename_shape "Best Budget Phone!! 2025" 3 "20250101"
  exact h5

/-- C5: at the upload stage the Publish transition is enabled exactly when
the uploaded-file count equals the image-plan descriptor count (the machine
reaches stage 6 from stage 5 exactly on a match), the mismatch warning
shows exactly on a nonempty mismatch, the files are stored (in upload
order) only on an exact match, and in particular 2 files against 3
descriptors block while 3 against 3 unlock. -/
theorem c5_upload_gate :
    (∀ (files : List ImgFile) (needed : Nat),
      publishButtonDisabled files needed = false ↔ files.length = needed)
    ∧ (∀ (prev files : List ImgFile) (needed : Nat),
        step5StoredImages prev files needed ≠ prev →
          files.length = needed ∧ step5StoredImages prev files needed = files)
    ∧ (∀ (prev files : List ImgFile) (needed : Nat),
        files ≠ [] → files.length = needed → step5StoredImages prev files needed = files)
    ∧ (∀ (s : AppState) (files : List ImgFile), s.step = 5 →
        ((stepFn s (Action.publish5 files)).step = 6 ↔ files.length = planCount s.article))
    ∧ (∀ (files : List ImgFile) (needed : Nat),
        step5Warning files needed = true ↔ (files ≠ [] ∧ files.length ≠ needed))
    ∧ publishButtonDisabled [1, 2] 3 = true
    ∧ publishButtonDisabled [1, 2, 3] 3 = false
    ∧ step5Warning [1, 2] 3 = true := by
  refine ⟨?_, ?_, ?_, ?_, ?_, by decide, by decide, by decide⟩
  · intro files needed
    simp [publishButtonDisabled]
  · intro prev files needed h
    unfold step5StoredImages at h ⊢
    split at h
    · rename_i hcond
      simp only [Bool.and_eq_true, beq_iff_eq, Bool.not_eq_true'] at hcond
      rw [if_pos]
      · exact ⟨hcond.2, rfl⟩
      · simp [hcond.1, hcond.2]
    · exact absurd rfl h
  · intro prev files needed h1 h2
    unfold step5StoredImages
    rw [if_pos]
    simp [List.isEmpty_iff, h1, h2]
  · intro s files hs
    simp only [stepFn, hs, if_pos]
    unfold publish5Handler
    by_cases hc : files.length = planCount s.article
    · rw [if_pos hc]
      simp [hc]
    · rw [if_neg hc]
      simp only [hs]
      constructor
      · intro h6
        exact absurd h6 (by omega)
      · intro h
        exact absurd h hc
  · intro files needed
    simp [step5Warning, List.isEmpty_iff]

/-- C5 witness: the gate applied at concrete inputs — an exact 3-of-3 match
stores the files in order, and 2-of-3 leaves the button disabled. -/
theorem c5_upload_gate_witness :
    step5StoredImages [] [7, 8, 9] 3 = [7, 8, 9] ∧ publishButtonDisabled [1, 2] 3 = true :=
  ⟨c5_upload_gate.2.2.1 [] [7, 8, 9] 3 (by decide) (by decide),
   c5_upload_gate.2.2.2.2.2.1⟩

/-- C9: under every action the stage stays an integer in 1..6; the stage
strictly increases only under one of the five explicitly mapped forward
actions; and each Back button, clicked at its own stage, moves exactly one
stage down while leaving the article record (and everything else) unchanged. -/
theorem c9_stage_machine :
    (∀ (s : AppState) (a : Action), 1 ≤ s.step → s.step ≤ 6 →
      1 ≤ (stepFn s a).step ∧ (stepFn s a).step ≤ 6)
    ∧ (∀ (s : AppState) (a : Action), 1 ≤ s.step →
        s.step < (stepFn s a).step → isForwardAction a = true)
    ∧ (∀ s : AppState, s.step = 2 → stepFn s Action.back2 = { s with step := 1 })
    ∧ (∀ s : AppState, s.step = 3 → stepFn s Action.back3 = { s with step := 2 })
    ∧ (∀ s : AppState, s.step = 4 → hasPlan s = true →
        stepFn s Action.back4 = { s with step := 3 })
    ∧ (∀ s : AppState, s.step = 5 → stepFn s Action.back5 = { s with step := 4 }) := by
  refine ⟨?_, ?_, ?_, ?_, ?_, ?_⟩
  · intro s a h1 h6
    cases a with
    | submit1 f resp =>
      simp only [stepFn]
      split
      · rcases step1Submit_step s f resp with h | h <;> rw [h] <;> omega
      · exact ⟨h1, h6⟩
    | back2 =>
      simp only [stepFn]
      split
      · refine ⟨?_, ?_⟩ <;> (dsimp only; omega)
      · exact ⟨h1, h6⟩
    | next2 f =>
      simp only [stepFn]
      split
      · rcases step2Next_step s f with h | h <;> rw [h] <;> omega
      · exact ⟨h1, h6⟩
    | back3 =>
      simp only [stepFn]
      split
      · refine ⟨?_, ?_⟩ <;> (dsimp only; omega)
      · exact ⟨h1, h6⟩
    | fwd3 =>
      simp only [stepFn]
      split
      · refine ⟨?_, ?_⟩ <;> (dsimp only; omega)
      · exact ⟨h1, h6⟩
    | back4 =>
      simp only [stepFn]
      split
      · refine ⟨?_, ?_⟩ <;> (dsimp only; omega)
      · exact ⟨h1, h6⟩
    | fwd4 =>
      simp only [stepFn]
      split
      · refine ⟨?_, ?_⟩ <;> (dsimp only; omega)
      · exact ⟨h1, h6⟩
    | back5 =>
      simp only [stepFn]
      split
      · refine ⟨?_, ?_⟩ <;> (dsimp only; omega)
      · exact ⟨h1, h6⟩
    | publish5 files =>
      simp only [stepFn]
      split
      · rcases publish5Handler_step s files with h | h <;> rw [h] <;> omega
      · exact ⟨h1, h6⟩
    | publish6 env => exact ⟨h1, h6⟩
    | reset => refine ⟨?_, ?_⟩ <;> (dsimp only [stepFn]; omega)
  · intro s a h1 hlt
    cases a with
    | submit1 f resp => rfl
    | next2 f => rfl
    | fwd3 => rfl
    | fwd4 => rfl
    | publish5 files => rfl
    | back2 =>
      exfalso
      simp only [stepFn] at hlt
      split at hlt
      · rename_i hc
        have hv : ({ s with step := 1 } : AppState).step = 1 := rfl
        rw [hv] at hlt
        omega
      · omega
    | back3 =>
      exfalso
      simp only [stepFn] at hlt
      split at hlt
      · rename_i hc
        have hv : ({ s with step := 2 } : AppState).step = 2 := rfl
        rw [hv] at hlt
        omega
      · omega
    | back4 =>
      exfalso
      simp only [stepFn] at hlt
      split at hlt
      · rename_i hc
        have hv : ({ s with step := 3 } : AppState).step = 3 := rfl
        rw [hv] at hlt
        omega
      · omega
    | back5 =>
      exfalso
      simp only [stepFn] at hlt
      split at hlt
      · rename_i hc
        have hv : ({ s with step := 4 } : AppState).step = 4 := rfl
        rw [hv] at hlt
        omega
      · omega
    | publish6 env =>
      exfalso
      have hv : stepFn s (Action.publish6 env) = s := rfl
      rw [hv] at hlt
      omega
    | reset =>
      exfalso
      have hv : (stepFn s Action.reset).step = 1 := rfl
      rw [hv] at hlt
      omega
  · intro s h
    simp only [stepFn]
    rw [if_pos h]
  · intro s h
    simp only [stepFn]
    rw [if_pos h]
  · intro s h hp
    simp only [stepFn]
    rw [if_pos ⟨h, hp⟩]
  · intro s h
    simp only [stepFn]
    rw [if_pos h]

/-- C9 witness: the machine applied at a concrete stage-2 state — Back
moves to stage 1 with the article intact, and the bounds hold there. -/
theorem c9_stage_machine_witness :
    stepFn { step := 2, article := [("title", Json.str "t")], images := [] } Action.back2
      = { step := 1, article := [("title", Json.str "t")], images := [] } :=
  c9_stage_machine.2.2.1 { step := 2, article := [("title", Json.str "t")], images := [] } rfl

/-- C4: every post-creation payload carries status "draft" — both in the
payload builder and in the request issued by the full publish pipeline —
and the stage-6 publish click writes no session state at all (stage,
article record and uploaded images are unchanged), so in particular a
failed post creation leaves everything in place for a retry with the same
button. -/
theorem c4_draft_status_and_retry :
    (∀ (title content meta_desc slug : String) (categories tags : List Nat)
        (featured_image_id : Nat),
      (wordpress_post_data title content meta_desc slug categories tags
        featured_image_id).status = "draft")
    ∧ (∀ (env : PublishEnv) (inp : PublishInputs),
        (publishRun env inp).request.status = "draft")
    ∧ (∀ (s : AppState) (env : PublishEnv), stepFn s (Action.publish6 env) = s) :=
  ⟨fun _ _ _ _ _ _ _ => rfl, fun _ _ => rfl, fun _ _ => rfl⟩

/-- Per-image outcome data for the C3 witness: descriptor `i` of the plan. -/
def descC3 (i : Nat) : Descriptor :=
  { alt_text := "alt " ++ toString i, caption := "", position := some "after_section",
    section_heading := none }

/-- Publish environment for the C3 witness: conversion fails exactly on
file 2, uploads succeed with media id `bytes + 100`. -/
def envC3 : PublishEnv :=
  { convert := fun f => if f = 2 then none else some f,
    upload := fun w _ _ => some { id := w + 100, source_url := "https://cms/m" },
    wpCategories := fun _ => none,
    wpTags := fun _ => none,
    createPost := fun r => some { id := 9, title := r.title, status := r.status, link := "L" },
    today := "20250101" }

/-- Session inputs for the C3 witness: three plan descriptors, three files. -/
def inpC3 : PublishInputs :=
  { title := "T", meta_desc := "M", slug := "s", content := "<p>c</p>",
    categories := [], tags := [], planImages := [descC3 1, descC3 2, descC3 3],
    uploadedImages := [1, 2, 3] }

/-- First successful upload entry in the C3 witness run: file 1 converts to
webp bytes 1 and uploads as media 101. -/
def wC3 : WpImage :=
  { id := 101, url := "https://cms/m", alt := "alt 1", caption := "",
    position := some "after_section", section_heading := none }

/-- C3: the pipeline's wp_images list is exactly the successful per-image
outcomes in order; a post-creation request is issued through the oracle
unconditionally; when at least one image succeeds (in particular when some
but not all fail) the featured-media id sent is the id of the first
successful upload; and when every image fails the sentinel 0 is sent. -/
theorem c3_partial_failure (env : PublishEnv) (inp : PublishInputs) :
    ((publishRun env inp).wpImages
      = (processOutcomes env 1 (inp.uploadedImages.zip inp.planImages)).reduceOption)
    ∧ ((publishRun env inp).postResult = env.createPost (publishRun env inp).request)
    ∧ ((∃ o ∈ processOutcomes env 1 (inp.uploadedImages.zip inp.planImages), o.isSome = true) →
        ∃ w, ((processOutcomes env 1 (inp.uploadedImages.zip inp.planImages)).reduceOption).head?
            = some w
          ∧ (publishRun env inp).request.featured_media = w.id)
    ∧ ((∀ o ∈ processOutcomes env 1 (inp.uploadedImages.zip inp.planImages), o = none) →
        (publishRun env inp).request.featured_media = 0) := by
  have hws : (publishRun env inp).wpImages
      = (processOutcomes env 1 (inp.uploadedImages.zip inp.planImages)).reduceOption :=
    processImages_eq_outcomes env (inp.uploadedImages.zip inp.planImages) 1
  have hfeat : (publishRun env inp).request.featured_media
      = featuredImageId (publishRun env inp).wpImages := rfl
  refine ⟨hws, rfl, ?_, ?_⟩
  · rintro ⟨o, ho, hsome⟩
    obtain ⟨w0, hw0⟩ := Option.isSome_iff_exists.mp hsome
    subst hw0
    have hmem : w0 ∈ (processOutcomes env 1 (inp.uploadedImages.zip inp.planImages)).reduceOption :=
      List.reduceOption_mem_iff.mpr ho
    cases hred : (processOutcomes env 1 (inp.uploadedImages.zip inp.planImages)).reduceOption with
    | nil => rw [hred] at hmem; simp at hmem
    | cons w t =>
      refine ⟨w, rfl, ?_⟩
      rw [hfeat, hws, hred]
      rfl
  · intro hall
    have hred : (processOutcomes env 1 (inp.uploadedImages.zip inp.planImages)).reduceOption = [] := by
      rw [List.eq_nil_iff_forall_not_mem]
      intro w hw
      have := hall (some w) (List.reduceOption_mem_iff.mp hw)
      simp at this
    rw [hfeat, hws, hred]
    rfl

/-- C3 witness: with 1 of 3 conversions failing, the issued request's
featured-media id is that of the first successful upload (media 101), the
successes are kept in order, and post creation is still attempted. -/
theorem c3_partial_failure_witness :
    (publishRun envC3 inpC3).request.featured_media = 101
    ∧ (publishRun envC3 inpC3).wpImages
        = (processOutcomes envC3 1 (inpC3.uploadedImages.zip inpC3.planImages)).reduceOption
    ∧ (publishRun envC3 inpC3).postResult = envC3.createPost (publishRun envC3 inpC3).request := by
  have h := c3_partial_failure envC3 inpC3
  obtain ⟨w, hw, hfeat⟩ := h.2.2.1 ⟨some wC3, by decide, rfl⟩
  have hwval : w = wC3 := by
    have h2 : some w = some wC3 := by
      rw [← hw]
      rfl
    exact Option.some.inj h2
  refine ⟨?_, h.1, h.2.1⟩
  rw [hfeat, hwval]
  rfl

/-- C10: publishing is insertion-only: each splice step either leaves the
content unchanged or inserts one figure block at a position within the
content; hence the original content is an order-preserving subsequence of
the content sent to post creation, which is exactly the splice of the
stored content with the successful uploads; and the stage-6 click leaves
the stored article record (so its content field) untouched. -/
theorem c10_insertion_only :
    (∀ (cs : List Char) (img : WpImage),
      spliceImage cs img = cs ∨
        ∃ e, e ≤ cs.length ∧
          spliceImage cs img = insertAt cs e (figureHtml img.url img.alt img.caption).data)
    ∧ (∀ (content : List Char) (ws : List WpImage), content.Sublist (spliceAll content ws))
    ∧ (∀ (env : PublishEnv) (inp : PublishInputs),
        (publishRun env inp).request.content
          = String.mk (spliceAll inp.content.data (publishRun env inp).wpImages))
    ∧ (∀ (s : AppState) (env : PublishEnv),
        (stepFn s (Action.publish6 env)).article = s.article) := by
  refine ⟨?_, ?_, fun _ _ => rfl, fun _ _ => rfl⟩
  · intro cs img
    unfold spliceImage
    split
    · exact Or.inl rfl
    · split
      · exact Or.inl rfl
      · split
        · exact Or.inl rfl
        · rename_i h hne e he
          exact Or.inr ⟨e, h2SearchEnd_le_length cs _ e he, rfl⟩
  · intro content ws
    exact sublist_spliceFold (ws.drop 1) content

/-! ## C1 data -/

/-- Fresh stage-1 state. -/
def s0C1 : AppState := { step := 1, article := [], images := [] }

/-- Stage-1 form inputs. -/
def f0C1 : Step1Form :=
  { topic := "t", keyword := "k", tone := "Professional", word_count := 1500 }

/-- Response with exactly one JSON object in prose whose trailing prose
contains a stray close brace. -/
def rC1 : String := "ok \x7b\"x\": 1\x7d end\x7d"

/-- The greedy span the code extracts from `rC1`. -/
def spanC1 : String := "\x7b\"x\": 1\x7d end\x7d"

/-- The unique balanced JSON object substring of `rC1`. -/
def objC1 : String := "\x7b\"x\": 1\x7d"

/-- Response whose only braces delimit a single embedded object. -/
def goodC1 : String := "Sure: \x7b\"title\": \"T\"\x7d Done."

/-- C1 counterexample: `rC1` contains exactly one JSON object embedded in
prose, yet the stage-1 extraction (greedy first-open-brace to
last-close-brace) hands the decoder a strictly larger, undecodable
substring — not the first balanced object substring — so the decode fails
and the stage does not advance, refuting the claim's decode-success and
first-balanced-substring clauses. -/
theorem c1_counterexample :
    extractSpan rC1.data = some spanC1.data
    ∧ jsonLoadsL spanC1.data = none
    ∧ specFirstBalancedObject rC1.data = some objC1.data
    ∧ jsonLoadsL objC1.data = some (Json.obj [("x", Json.num "1")])
    ∧ spanC1.data ≠ objC1.data
    ∧ applyStep1Response s0C1 f0C1 rC1 = s0C1
    ∧ s0C1.step = 1 :=
  ⟨rfl, rfl, rfl, rfl, by decide, rfl, rfl⟩

/-- C1 (amended): the extracted substring runs greedily from the first open
brace to the last close brace of the response (no open brace precedes it,
no close brace follows it); when no such span exists, or its strict decode
fails, the stage-1 handler leaves the session state unchanged and the stage
does not advance; when the span decodes to an object the fields are merged
and the stage advances to 2 — as on the concrete single-object response
`goodC1`, whose surrounding prose holds no other braces. -/
theorem c1_amended :
    (∀ (cs sp : List Char), extractSpan cs = some sp →
      ∃ pre post, cs = pre ++ sp ++ post ∧ '{' ∉ pre ∧ '}' ∉ post ∧
        sp.head? = some '{' ∧ sp.getLast? = some '}')
    ∧ (∀ (s : AppState) (f : Step1Form) (r : String),
        extractSpan r.data = none → applyStep1Response s f r = s)
    ∧ (∀ (s : AppState) (f : Step1Form) (r : String) (sp : List Char),
        extractSpan r.data = some sp → jsonLoadsL sp = none →
          applyStep1Response s f r = s)
    ∧ applyStep1Response s0C1 f0C1 goodC1
        = { step := 2,
            article := [("title", Json.str "T"), ("topic", Json.str "t"),
              ("keyword", Json.str "k"), ("tone", Json.str "Professional"),
              ("word_count", Json.num "1500")],
            images := [] } := by
  refine ⟨extractSpan_decomp, ?_, ?_, rfl⟩
  · intro s f r h
    simp [applyStep1Response, h]
  · intro s f r sp h1 h2
    simp [applyStep1Response, h1, h2]

/-- C1 witness: the amended theorem applied at concrete inputs — a
brace-free response leaves the state unchanged, and so does the
stray-brace response whose greedy span fails to decode. -/
theorem c1_amended_witness :
    applyStep1Response s0C1 f0C1 "no braces here" = s0C1
    ∧ applyStep1Response s0C1 f0C1 rC1 = s0C1 :=
  ⟨c1_amended.2.1 s0C1 f0C1 "no braces here" rfl,
   c1_amended.2.2.1 s0C1 f0C1 rC1 spanC1.data rfl rfl⟩

/-! ## C2 data -/

/-- An uploaded in-content image targeting the heading "Budget Phones". -/
def imgC2 : WpImage :=
  { id := 7, url := "https://x/img.webp", alt := "budget phones alt",
    caption := "A caption", position := some "after_section",
    section_heading := some "Budget Phones" }

/-- The spec's positive example: one matching heading. -/
def cPosC2 : String := "<p>Intro</p>\n<h2>Top 5 Budget Phones</h2>\n<p>Body</p>"

/-- Result of splicing `imgC2` into `cPosC2`: the figure block sits
immediately after the matching heading's closing tag. -/
def posResultC2 : String :=
  "<p>Intro</p>\n<h2>Top 5 Budget Phones</h2>\n<figure class=\"wp-block-image\"><img src=\"https://x/img.webp\" alt=\"budget phones alt\" /><figcaption>A caption</figcaption></figure>\n\n<p>Body</p>"

/-- Content where the target occurs in prose between two headings that do
not contain it, and a third heading does contain it. -/
def cBadC2 : String := "<h2>Alpha</h2> budget phones <h2>Beta</h2> <h2>Budget Phones</h2>"

/-- What the code produces on `cBadC2`: the block lands after `<h2>Beta</h2>`
because the regex match spans from the first heading across the prose
occurrence of the target to the next closing tag. -/
def wrongC2 : String :=
  "<h2>Alpha</h2> budget phones <h2>Beta</h2>\n<figure class=\"wp-block-image\"><img src=\"https://x/img.webp\" alt=\"budget phones alt\" /><figcaption>A caption</figcaption></figure>\n <h2>Budget Phones</h2>"

/-- What the claim prescribes on `cBadC2`: the block after the first (only)
heading whose inner text contains the target. -/
def rightC2 : String :=
  "<h2>Alpha</h2> budget phones <h2>Beta</h2> <h2>Budget Phones</h2>\n<figure class=\"wp-block-image\"><img src=\"https://x/img.webp\" alt=\"budget phones alt\" /><figcaption>A caption</figcaption></figure>\n"

/-- C2 counterexample: on `cBadC2` the only level-2 heading whose inner text
contains the target case-insensitively is `<h2>Budget Phones</h2>`, but the
code's regex (whose lazy gaps may span element boundaries) inserts the
figure block after `<h2>Beta</h2>` instead — the match ends at index 42
while the first matching heading ends at index 65. -/
theorem c2_counterexample :
    spliceImage cBadC2.data imgC2 = wrongC2.data
    ∧ specHeadingSplice cBadC2.data imgC2 = rightC2.data
    ∧ wrongC2.data ≠ rightC2.data
    ∧ h2SearchEnd "Budget Phones".data cBadC2.data = some 42
    ∧ specFirstH2End "Budget Phones".data cBadC2.data = some 65 :=
  ⟨rfl, rfl, by decide, rfl, rfl⟩

/-- C2 (amended): the splice point is the end of the leftmost match of
`<h2>` lazy-gap target lazy-gap `</h2>` (case-insensitive, gaps not
crossing newlines); the match may span several elements when the target
occurs between headings, so the insertion is not always after a heading
containing the target.  When the pattern has no match the content is
returned unchanged (the splice function is total, so no exception can end
the publish), and on the spec's own single-heading example the block is
inserted immediately after that heading's closing tag, agreeing with the
spec-modelled splice. -/
theorem c2_amended :
    (∀ (content : List Char) (img : WpImage) (h : String),
      img.section_heading = some h → h ≠ "" →
        h2SearchEnd h.data content = none → spliceImage content img = content)
    ∧ (∀ (content : List Char) (img : WpImage) (h : String) (e : Nat),
        img.section_heading = some h → h ≠ "" →
          h2SearchEnd h.data content = some e →
            spliceImage content img
              = insertAt content e (figureHtml img.url img.alt img.caption).data)
    ∧ spliceImage cPosC2.data imgC2 = posResultC2.data
    ∧ spliceImage cPosC2.data imgC2 = specHeadingSplice cPosC2.data imgC2 := by
  refine ⟨?_, ?_, rfl, rfl⟩
  · intro content img h h1 h2 h3
    simp [spliceImage, h1, h2, h3]
  · intro content img h e h1 h2 h3
    simp [spliceImage, h1, h2, h3]

/-- C2 witness: the amended theorem applied at a concrete no-match content —
the content is returned unchanged. -/
theorem c2_amended_witness :
    spliceImage "<p>x</p>".data imgC2 = "<p>x</p>".data :=
  c2_amended.1 "<p>x</p>".data imgC2 "Budget Phones" rfl (by decide) rfl

/-! ## C7 data -/

/-- Stage-2 state whose stored article has a title and an outline. -/
def s0C7 : AppState :=
  { step := 2, article := [("title", Json.str "Old"), ("outline", Json.arr [])], images := [] }

/-- Stage-2 form submission with an invalid outline edit and a changed
title. -/
def f0C7 : Step2Form :=
  { title := "New", meta_desc := "m", slug := "s", focus := "f",
    outline_text := "not json", categories := "a, b", tags := "x" }

/-- C7 counterexample: with an invalid edited outline the transition is
blocked (stage stays 2), but the article record is not unchanged — the
title (and the other three metadata fields) are overwritten with the
submitted form values before the parse fails. -/
theorem c7_counterexample :
    json_loads f0C7.outline_text = none
    ∧ (step2Next s0C7 f0C7).step = 2
    ∧ dictGet s0C7.article "title" = some (Json.str "Old")
    ∧ dictGet (step2Next s0C7 f0C7).article "title" = some (Json.str "New")
    ∧ ("New" : String) ≠ "Old" :=
  ⟨rfl, rfl, rfl, rfl, by decide⟩

/-- C7 (amended): on an invalid outline edit the stage does not advance and
the outline, categories, tags and stored uploads are untouched, but the
title, meta description, slug and focus keyphrase have already been
overwritten with the submitted form values (the parse error surfaces as an
uncaught exception rendered by the framework, not a handled inline
message). -/
theorem c7_amended (s : AppState) (f : Step2Form)
    (hfail : json_loads f.outline_text = none) :
    (step2Next s f).step = s.step
    ∧ dictGet (step2Next s f).article "outline" = dictGet s.article "outline"
    ∧ dictGet (step2Next s f).article "categories" = dictGet s.article "categories"
    ∧ dictGet (step2Next s f).article "tags" = dictGet s.article "tags"
    ∧ dictGet (step2Next s f).article "title" = some (Json.str f.title)
    ∧ dictGet (step2Next s f).article "meta_description" = some (Json.str f.meta_desc)
    ∧ dictGet (step2Next s f).article "slug" = some (Json.str f.slug)
    ∧ dictGet (step2Next s f).article "focus_keyphrase" = some (Json.str f.focus)
    ∧ (step2Next s f).images = s.images := by
  have hart : (step2Next s f).article = dictSet (dictSet (dictSet (dictSet s.article "title" (Json.str f.title)) "meta_description" (Json.str f.meta_desc)) "slug" (Json.str f.slug)) "focus_keyphrase" (Json.str f.focus) := by
    simp [step2Next, hfail]
  have hstep : (step2Next s f).step = s.step := by
    simp [step2Next, hfail]
  have himg : (step2Next s f).images = s.images := by
    simp [step2Next, hfail]
  rw [hstep, hart, himg]
  refine ⟨rfl, ?_, ?_, ?_, ?_, ?_, ?_, ?_, rfl⟩
  · rw [dictGet_dictSet_ne _ "focus_keyphrase" "outline" _ (by decide),
        dictGet_dictSet_ne _ "slug" "outline" _ (by decide),
        dictGet_dictSet_ne _ "meta_description" "outline" _ (by decide),
        dictGet_dictSet_ne _ "title" "outline" _ (by decide)]
  · rw [dictGet_dictSet_ne _ "focus_keyphrase" "categories" _ (by decide),
        dictGet_dictSet_ne _ "slug" "categories" _ (by decide),
        dictGet_dictSet_ne _ "meta_description" "categories" _ (by decide),
        dictGet_dictSet_ne _ "title" "categories" _ (by decide)]
  · rw [dictGet_dictSet_ne _ "focus_keyphrase" "tags" _ (by decide),
        dictGet_dictSet_ne _ "slug" "tags" _ (by decide),
        dictGet_dictSet_ne _ "meta_description" "tags" _ (by decide),
        dictGet_dictSet_ne _ "title" "tags" _ (by decide)]
  · rw [dictGet_dictSet_ne _ "focus_keyphrase" "title" _ (by decide),
        dictGet_dictSet_ne _ "slug" "title" _ (by decide),
        dictGet_dictSet_ne _ "meta_description" "title" _ (by decide),
        dictGet_dictSet_self]
  · rw [dictGet_dictSet_ne _ "focus_keyphrase" "meta_description" _ (by decide),
        dictGet_dictSet_ne _ "slug" "meta_description" _ (by decide),
        dictGet_dictSet_self]
  · rw [dictGet_dictSet_ne _ "focus_keyphrase" "slug" _ (by decide),
        dictGet_dictSet_self]
  · rw [dictGet_dictSet_self]

/-- C7 witness: the amended theorem at the concrete invalid edit — stage
stays 2 and the stored outline is untouched. -/
theorem c7_amended_witness :
    (step2Next s0C7 f0C7).step = 2
    ∧ dictGet (step2Next s0C7 f0C7).article "outline" = some (Json.arr []) := by
  have h := c7_amended s0C7 f0C7 rfl
  exact ⟨h.1, by rw [h.2.1]; rfl⟩

/-! ## C8 data -/

/-- A configuration with the Gemini key present but the CMS base URL
missing. -/
def cfgC8 : Secrets :=
  { gemini := some "key", wpUrl := none, wpUser := some "u", wpPass := some "p" }

/-- C8 counterexample: a configuration missing one of the four required
secrets (the CMS base URL) does not halt the workflow at startup — only the
generation-service credential is checked there — and the absence instead
surfaces when the stage-6 WordPress helpers read the secrets. -/
theorem c8_counterexample :
    requiredSecretsPresent cfgC8 = false
    ∧ startupHalts cfgC8 false = false
    ∧ wpSecretsRead cfgC8 = none :=
  ⟨rfl, rfl, rfl⟩

/-- C8 (amended): startup halts exactly when the generation-service
credential is absent or its configuration call fails; the three CMS secrets
are not validated at startup — their absence is encountered only when the
stage-6 WordPress helpers (media upload, post creation) read them. -/
theorem c8_amended :
    (∀ (cfg : Secrets) (configureFails : Bool),
      startupHalts cfg configureFails = false
        ↔ (cfg.gemini.isSome = true ∧ configureFails = false))
    ∧ (∀ cfg : Secrets,
        wpSecretsRead cfg = none
          ↔ (cfg.wpUrl.isNone = true ∨ cfg.wpUser.isNone = true ∨ cfg.wpPass.isNone = true))
    ∧ (∀ cfg : Secrets, startupHalts cfg false = false → cfg.gemini.isSome = true) := by
  refine ⟨?_, ?_, ?_⟩
  · intro cfg cf
    obtain ⟨g, u, n, p⟩ := cfg
    cases g <;> cases cf <;> simp [startupHalts]
  · intro cfg
    obtain ⟨g, u, n, p⟩ := cfg
    cases u <;> cases n <;> cases p <;> simp [wpSecretsRead]
  · intro cfg h
    obtain ⟨g, u, n, p⟩ := cfg
    cases g with
    | none => simp [startupHalts] at h
    | some k => rfl

/-- C8 witness: the amended theorem applied at the concrete configuration
missing the CMS URL — startup proceeds because the Gemini key is present. -/
theorem c8_amended_witness : cfgC8.gemini.isSome = true :=
  c8_amended.2.2 cfgC8 rfl

end GuideGen
